import Mathlib

/-!
Verification of the stat-arb backtester (Rust sources in `src/`).

Modelling conventions.
* `f64` values are modelled as exact rationals (`ℚ`): every finite `f64` is a
  rational number and all operations the pipeline performs on them
  (comparisons, `+`, `-`, `*`, `/`) are idealised without rounding error.
* The transcendental parts of the evaluation layer (`f64::exp`, `powf`,
  `sqrt`) are idealised as the corresponding real functions, so the
  evaluation-layer definitions live in `ℝ` and are `noncomputable`.
* A Rust panic (out-of-bounds index, `ndarray` shape mismatch) is modelled
  by `Option.none`; a normal return of `v` by `some v`.  `Result<T, E>` is
  modelled by `Except E T`, so `run_backtest`, which can both panic and
  (per its signature) return a `Result`, is modelled as
  `Option (Except String Metrics)`.
* `u32` counters are modelled as `ℕ` (they count loop iterations, far below
  `2^32`, so wrap-around is unreachable).
-/

namespace StatArb

/-! ## utils.rs -/

/-- `f64::round`: round to nearest integer, ties away from zero. -/
def f64round (x : ℚ) : ℤ :=
  if 0 ≤ x then ⌊x + 1/2⌋ else -⌊-x + 1/2⌋

/-- `utils::round_float`: round `num` to `decimals` decimal places
(source: `(num * multiplier).round() / multiplier`). -/
def round_float (num : ℚ) (decimals : ℕ) : ℚ :=
  let multiplier : ℚ := 10 ^ decimals
  (f64round (num * multiplier) : ℚ) / multiplier

/-- Loop of `utils::cumulative_returns` (`scan` with running state). -/
def cumAux (state : ℚ) : List ℚ → List ℚ
  | [] => []
  | x :: rest => (state + x) :: cumAux (state + x) rest

/-- `utils::cumulative_returns`: running cumulative sum of log returns. -/
def cumulative_returns (log_returns : List ℚ) : List ℚ :=
  cumAux 0 log_returns

/-! ## models.rs : Signals -/

/-- `models::SignalType`. -/
inductive SignalType where
  | Long
  | Short
deriving DecidableEq

/-- `models::Signals`: four optional `(open, close)` threshold pairs plus a
direction.  `.fst` of each pair is the open threshold, `.snd` the close
threshold (Rust `.0` / `.1`). -/
structure Signals where
  eq : Option ℚ × Option ℚ
  neq : Option ℚ × Option ℚ
  gt : Option ℚ × Option ℚ
  lt : Option ℚ × Option ℚ
  signal_type : SignalType
deriving DecidableEq

/-- A Rust match-guard `o.is_some() && p(o.unwrap())` on an optional
threshold. -/
def optMatch (o : Option ℚ) (p : ℚ → Bool) : Bool :=
  match o with
  | some t => p t
  | none => false

/-- One arm evaluation of `Signals::generate_triggers`: the guard chain of the
`match value` expression, in source order
(eq-open, neq-open, gt-open, lt-open, eq-close, neq-close, gt-close,
lt-close, wildcard). -/
def triggerOf (sg : Signals) (x : ℚ) : ℚ :=
  if optMatch sg.eq.fst (fun t => decide (x = t)) then 1
  else if optMatch sg.neq.fst (fun t => decide (x ≠ t)) then 1
  else if optMatch sg.gt.fst (fun t => decide (x ≥ t)) then 1
  else if optMatch sg.lt.fst (fun t => decide (x ≤ t)) then 1
  else if optMatch sg.eq.snd (fun t => decide (x = t)) then -1
  else if optMatch sg.neq.snd (fun t => decide (x ≠ t)) then -1
  else if optMatch sg.gt.snd (fun t => decide (x ≥ t)) then -1
  else if optMatch sg.lt.snd (fun t => decide (x ≤ t)) then -1
  else 0

/-- `Signals::generate_triggers`: map the guard chain over the series. -/
def generate_triggers (sg : Signals) (series : List ℚ) : List ℚ :=
  series.map (triggerOf sg)

/-- The hysteresis loop of `Signals::generate_signals`.  The source starts
from `open_signals = vec![0.0]`, `is_open = false` and, for `i` in
`1..triggers.len()`, looks at `triggers[i - 1]`; the values consulted are
exactly the elements of `triggers.dropLast`, in order. -/
def sigStep (factor : ℚ) (st : Bool × List ℚ) (prev : ℚ) : Bool × List ℚ :=
  if !st.fst && decide (prev = 1) then (true, st.snd ++ [factor])
  else if st.fst && decide (prev ≠ -1) then (true, st.snd ++ [factor])
  else (false, st.snd ++ [0])

/-- Hysteresis stage of `Signals::generate_signals`, taking the trigger
series as input (in the source the loop body of `generate_signals`). -/
def signalsFromTriggers (factor : ℚ) (triggers : List ℚ) : List ℚ :=
  (triggers.dropLast.foldl (sigStep factor) (false, [0])).snd

/-- Direction factor of `Signals::generate_signals`. -/
def dirFactor : SignalType → ℚ
  | SignalType.Long => 1
  | SignalType.Short => -1

/-- `Signals::generate_signals`: triggers, then hysteresis. -/
def generate_signals (sg : Signals) (series : List ℚ) : List ℚ :=
  signalsFromTriggers (dirFactor sg.signal_type) (generate_triggers sg series)

/-- Inner scan of `Signals::consolidate_signals` at one index `j`: walk the
streams in order; a value `1.0` or `-1.0` is pushed and breaks; any other
value falls through; after the last stream, `0.0` is pushed.  Reading past
the end of a stream (`signals_arr[i][inner_i]`) panics (`none`). -/
def scanStreams (j : ℕ) : List (List ℚ) → Option ℚ
  | [] => some 0
  | s :: rest =>
    match s.get? j with
    | none => none
    | some v =>
      if v = 1 then some 1
      else if v = -1 then some (-1)
      else scanStreams j rest

/-- `Signals::consolidate_signals`.  `signals_arr[0].len()` panics on an
empty stream list; the outer loop runs over the first stream's indices. -/
def consolidate_signals (signals_arr : List (List ℚ)) : Option (List ℚ) :=
  match signals_arr with
  | [] => none
  | s0 :: _ => (List.range s0.length).mapM (fun j => scanStreams j signals_arr)

/-! ## models.rs : WinRate

The `WinRate` struct itself is declared in a part of `models.rs` not present
in the provided sources; its fields and types are reconstructed from its
construction site (`backtest.rs`, `WinRate { win_rate, opened, closed,
closed_profit }` with `win_rate : f64` and `u32` counters). -/

/-- `models::WinRate`. -/
structure WinRate where
  win_rate : ℚ
  opened : ℕ
  closed : ℕ
  closed_profit : ℕ
deriving DecidableEq

/-! ## backtest.rs -/

/-- Loop body of `Backtest::trade_costs` at index `i` (source `for i in
1..signals.len()`), updating the cost vector in place via `List.set`. -/
def tcStep (signals : List ℚ) (c : ℚ) (acc : List ℚ) (i : ℕ) : List ℚ :=
  let val := signals.getD i 0
  let prev := signals.getD (i - 1) 0
  if val = 0 ∧ prev ≠ 0 then acc.set (i - 1) (-c)
  else if val ≠ 0 ∧ prev = 0 then acc.set i (-c)
  else if val ≠ 0 ∧ prev ≠ 0 ∧ val ≠ prev then (acc.set (i - 1) (-c)).set i (-c)
  else acc

/-- `Backtest::trade_costs`: start from `vec![0.0; len]` and fold the loop
body over `i = 1, …, len - 1`. -/
def trade_costs (signals : List ℚ) (c : ℚ) : List ℚ :=
  (List.range' 1 (signals.length - 1)).foldl (tcStep signals c)
    (List.replicate signals.length 0)

/-- Shared branch structure of the `Backtest::win_rate_stats` loop body,
acting on the state `(opened, closed, closed_profit, curr_profit, is_open)`
given the pair of adjacent signals `(prev, val)` and the log return `ret`
at the current index. -/
def wrCore (st : ℕ × ℕ × ℕ × ℚ × Bool) (prev val ret : ℚ) :
    ℕ × ℕ × ℕ × ℚ × Bool :=
  let (opened, closed, cp, curr, isOpen) := st
  if val = 0 ∧ prev ≠ 0 then
    (opened, closed + 1, if 0 < curr then cp + 1 else cp, 0, false)
  else if val ≠ 0 ∧ prev = 0 then
    (opened + 1, closed, cp, curr + ret, true)
  else if val ≠ 0 ∧ prev ≠ 0 ∧ val ≠ prev then
    (opened + 1, closed + 1, if 0 < curr then cp + 1 else cp, curr + ret, true)
  else if isOpen then
    (opened, closed, cp, curr + ret, isOpen)
  else st

/-- Loop body of `Backtest::win_rate_stats` at index `i`. -/
def wrStep (signals log_rets : List ℚ) (st : ℕ × ℕ × ℕ × ℚ × Bool) (i : ℕ) :
    ℕ × ℕ × ℕ × ℚ × Bool :=
  wrCore st (signals.getD (i - 1) 0) (signals.getD i 0) (log_rets.getD i 0)

/-- Final packaging of `Backtest::win_rate_stats`: `win_rate` is
`closed_profit / closed` only when both counters are positive, rounded to 2
decimals. -/
def wrPack (st : ℕ × ℕ × ℕ × ℚ × Bool) : WinRate :=
  let (opened, closed, cp, _, _) := st
  let wr : ℚ := if 0 < cp ∧ 0 < closed then (cp : ℚ) / (closed : ℚ) else 0
  ⟨round_float wr 2, opened, closed, cp⟩

/-- `Backtest::win_rate_stats`: fold the loop body over `i = 1, …, len - 1`.
The source indexes `log_rets[i]` directly (panicking when `log_rets` is
shorter than `signals`); theorems about this definition only instantiate it
at equal lengths, where `getD` coincides with the source's indexing. -/
def win_rate_stats (signals log_rets : List ℚ) : WinRate :=
  wrPack ((List.range' 1 (signals.length - 1)).foldl (wrStep signals log_rets)
    (0, 0, 0, 0, false))

/-- Elementwise `ndarray` binary operation on two 1-D arrays (`arr_1 + arr_2`
or `rets_arr * sig_arr`): with equal lengths it is `zipWith`; a length-1
right operand is broadcast; any other shape mismatch panics (`none`). -/
def ndOp (f : ℚ → ℚ → ℚ) (a b : List ℚ) : Option (List ℚ) :=
  if b.length = a.length then some (List.zipWith f a b)
  else if b.length = 1 then some (a.map (fun x => f x (b.getD 0 0)))
  else none

/-- `Backtest::construct_portfolio_returns`: `rets_arr * sig_arr * sign *
weight`, then `add_vecs` with the trading-cost vector (the cost vector is
added inside this function, once per call). -/
def construct_portfolio_returns (signals log_rets tcosts : List ℚ)
    (sign weight : ℚ) : Option (List ℚ) :=
  (ndOp (· * ·) log_rets signals).bind fun prod =>
    ndOp (· + ·) (prod.map (fun x => x * sign * weight)) tcosts

/-- The `log_returns` computed by `Backtest::run_backtest` (lines 130–142):
asset-1 strategy returns, plus — in pairs mode — asset-2 strategy returns
with sign `-1.0`; `construct_portfolio_returns` is called once per asset,
each call adding the same trading-cost vector. -/
def portfolio_log_returns (signals : List ℚ) (tcost w1 w2 : ℚ)
    (log_rets_1 : List ℚ) (log_rets_2_opt : Option (List ℚ)) :
    Option (List ℚ) :=
  let tc := trade_costs signals tcost
  (construct_portfolio_returns signals log_rets_1 tc 1 w1).bind fun s1 =>
    match log_rets_2_opt with
    | some log_rets_2 =>
      (construct_portfolio_returns signals log_rets_2 tc (-1) w2).bind fun s2 =>
        ndOp (· + ·) s1 s2
    | none => some s1

/-! ## utils.rs / evaluation.rs : the ℝ-valued layer

`f64::exp`, `powf` and `sqrt` are idealised as `Real.exp`, `Real.rpow` and
`Real.sqrt`, so everything from `normalise_returns` on lives in `ℝ`. -/

/-- `utils::normalise_returns`: `exp(x) - 1` elementwise. -/
noncomputable def normalise_returns (log_returns : List ℚ) : List ℝ :=
  log_returns.map (fun x => Real.exp (x : ℝ) - 1)

/-- `evaluation.rs` `Metrics` record (the final output of the pipeline). -/
structure Metrics where
  arr : ℝ
  drawdowns : List ℝ
  equity_curve : List ℝ
  max_drawdown : ℝ
  mean_return : ℝ
  sharpe_ratio : ℝ
  sortino_ratio : ℝ
  total_return : ℝ
  win_rate_stats : WinRate

/-- `f64::round` on the idealised reals (ties away from zero). -/
noncomputable def f64roundR (x : ℝ) : ℤ :=
  if 0 ≤ x then ⌊x + 1/2⌋ else -⌊-x + 1/2⌋

/-- `utils::round_float` on the idealised reals. -/
noncomputable def round_floatR (num : ℝ) (decimals : ℕ) : ℝ :=
  let multiplier : ℝ := 10 ^ decimals
  (f64roundR (num * multiplier) : ℝ) / multiplier

/-- `Evaluation::mean_return`: filter out zero log returns, average the
rest (`0` when none survive), then convert the log mean to a linear return
via `f64::exp(log_ret) - 1.0`. -/
noncomputable def mean_return (log_returns : List ℚ) : ℝ :=
  let filtered := log_returns.filter (fun x => decide (x ≠ 0))
  let sum : ℚ := filtered.foldl (· + ·) 0
  let count := filtered.length
  let log_ret : ℚ :=
    match count with
    | 0 => 0
    | _ => sum / (count : ℚ)
  Real.exp (log_ret : ℝ) - 1

/-- `Evaluation::annual_rate_of_return`: `(1 + mean_return).powf(252.0) - 1`.
The base `1 + mean_return = exp(log_ret)` is positive, where `powf` agrees
with `Real.rpow`. -/
noncomputable def annual_rate_of_return (log_returns : List ℚ) : ℝ :=
  Real.rpow (1 + mean_return log_returns) 252 - 1

/-- Loop of `Evaluation::drawdowns`: running maximum (strict improvement
test `r > max_return_so_far`) and `-(max - r)` pushed at every element. -/
noncomputable def ddGo (maxSoFar : ℝ) : List ℝ → List ℝ
  | [] => []
  | r :: rest =>
    let m := if maxSoFar < r then r else maxSoFar
    (-(m - r)) :: ddGo m rest

/-- `Evaluation::drawdowns`: normalise the *raw log-return series* (not the
cumulative equity curve) and scan it with the running maximum seeded at
index 0 (`norm_returns[0]` panics on an empty series). -/
noncomputable def drawdowns (log_returns : List ℚ) : Option (List ℝ) :=
  match normalise_returns log_returns with
  | [] => none
  | r0 :: rest => some (ddGo r0 (r0 :: rest))

/-- `Evaluation::sharpe_ratio`: population mean over population standard
deviation, with guards returning 0 on empty input, zero mean and zero
variance. -/
noncomputable def sharpe_ratio (log_returns : List ℚ) : ℝ :=
  let n : ℚ := (log_returns.length : ℚ)
  if n = 0 then 0
  else
    let mean : ℚ := log_returns.sum / n
    if mean = 0 then 0
    else
      let variance : ℚ := (log_returns.map (fun x => (x - mean) ^ 2)).sum / n
      if variance = 0 then 0
      else (mean : ℝ) / Real.sqrt (variance : ℝ)

/-- `Evaluation::sortino_ratio`: population mean over downside deviation
(mean of squared negative returns), with the analogous guards. -/
noncomputable def sortino_ratio (log_returns : List ℚ) : ℝ :=
  let n : ℚ := (log_returns.length : ℚ)
  if n = 0 then 0
  else
    let mean : ℚ := log_returns.sum / n
    if mean = 0 then 0
    else
      let negative_returns :=
        (log_returns.filter (fun x => decide (x < 0))).map (fun x => x ^ 2)
      let nNeg : ℚ := (negative_returns.length : ℚ)
      if nNeg = 0 then 0
      else
        let downside_variance : ℚ := negative_returns.sum / nNeg
        if downside_variance = 0 then 0
        else (mean : ℝ) / Real.sqrt (downside_variance : ℝ)

/-- `Evaluation::total_return`: last element of the normalised cumulative
curve; `cum_norm_returns[len - 1]` panics on an empty curve. -/
def total_return (cum_norm_returns : List ℝ) : Option ℝ :=
  cum_norm_returns.getLast?

/-- The `fold(f64::NAN, f64::min)` used for `max_drawdown`: on a non-empty
list it is the minimum; on an empty list the source yields `NaN`, which has
no idealised value (`none`) — unreachable in `run_evaluation_metrics`
because `drawdowns` already panicked on an empty series. -/
def foldMinNaN (l : List ℝ) : Option ℝ :=
  match l with
  | [] => none
  | d :: rest => some (rest.foldl min d)

/-- `Evaluation::run_evaluation_metrics`: assemble the rounded metrics
record.  `max_drawdown` is the minimum of the already-rounded drawdown
series, rounded again to 2 decimals. -/
noncomputable def run_evaluation_metrics (log_returns : List ℚ)
    (cum_norm_returns : List ℝ) (wr : WinRate) : Option Metrics :=
  (drawdowns log_returns).bind fun dd =>
    let ddRounded := dd.map (fun f => round_floatR f 3)
    (foldMinNaN ddRounded).bind fun mdd =>
      (total_return cum_norm_returns).bind fun tr =>
        some
          { arr := round_floatR (annual_rate_of_return log_returns) 2
            drawdowns := ddRounded
            equity_curve := cum_norm_returns.map (fun f => round_floatR f 3)
            max_drawdown := round_floatR mdd 2
            mean_return := round_floatR (mean_return log_returns) 3
            sharpe_ratio := round_floatR ( sharpe_ratio log_returns) 2
            sortino_ratio := round_floatR ( sortino_ratio log_returns) 2
            total_return := round_floatR tr 2
            win_rate_stats := wr }

/-- `Backtest::run_backtest`: trading costs, per-asset strategy returns,
cumulative and normalised curves, win-rate stats, evaluation metrics.  The
only `return` in the source is `Ok(eval_metrics)`. -/
noncomputable def run_backtest (signals : List ℚ) (tcost w1 w2 : ℚ)
    (log_rets_1 : List ℚ) (log_rets_2_opt : Option (List ℚ)) :
    Option (Except String Metrics) :=
  (portfolio_log_returns signals tcost w1 w2 log_rets_1 log_rets_2_opt).bind
    fun log_returns =>
      let strat_cum_log_rets := cumulative_returns log_returns
      let cum_norm_returns := normalise_returns strat_cum_log_rets
      let wr := win_rate_stats signals log_returns
      (run_evaluation_metrics log_returns cum_norm_returns wr).map Except.ok

/-! ## Specification-side definitions

These definitions follow the wording of the specification / claims and are
compared with the source-derived definitions above. -/

/-- Any open threshold matches (eq, neq, gt, lt — order irrelevant for the
match value, all emit `+1`). -/
def openMatchB (sg : Signals) (x : ℚ) : Bool :=
  optMatch sg.eq.fst (fun t => decide (x = t)) ||
  optMatch sg.neq.fst (fun t => decide (x ≠ t)) ||
  optMatch sg.gt.fst (fun t => decide (x ≥ t)) ||
  optMatch sg.lt.fst (fun t => decide (x ≤ t))

/-- Any close threshold matches. -/
def closeMatchB (sg : Signals) (x : ℚ) : Bool :=
  optMatch sg.eq.snd (fun t => decide (x = t)) ||
  optMatch sg.neq.snd (fun t => decide (x ≠ t)) ||
  optMatch sg.gt.snd (fun t => decide (x ≥ t)) ||
  optMatch sg.lt.snd (fun t => decide (x ≤ t))

/-- Trigger value as the specification states it: `+1` when some open
threshold matches, else `-1` when some close threshold matches, else `0`
(open conditions take precedence over close conditions). -/
def triggerSpec (sg : Signals) (x : ℚ) : ℚ :=
  if openMatchB sg x then 1 else if closeMatchB sg x then -1 else 0

/-- The claim's per-index description of the trading-cost series: index `j`
is charged `-cost_rate` exactly when it is the `i-1` of a close, the `i` of
an open, or either side of a reversal, for an adjacent pair `(i-1, i)`. -/
def chargeAt (s : List ℚ) (j : ℕ) : Prop :=
  -- close at pair (j, j+1): charged at i-1 = j
  (j + 1 < s.length ∧ s.getD (j + 1) 0 = 0 ∧ s.getD j 0 ≠ 0) ∨
  -- open at pair (j-1, j): charged at i = j
  (1 ≤ j ∧ j < s.length ∧ s.getD j 0 ≠ 0 ∧ s.getD (j - 1) 0 = 0) ∨
  -- reversal at pair (j, j+1): charged at i-1 = j
  (j + 1 < s.length ∧ s.getD (j + 1) 0 ≠ 0 ∧ s.getD j 0 ≠ 0 ∧
    s.getD (j + 1) 0 ≠ s.getD j 0) ∨
  -- reversal at pair (j-1, j): charged at i = j
  (1 ≤ j ∧ j < s.length ∧ s.getD j 0 ≠ 0 ∧ s.getD (j - 1) 0 ≠ 0 ∧
    s.getD j 0 ≠ s.getD (j - 1) 0)

instance (s : List ℚ) (j : ℕ) : Decidable (chargeAt s j) := by
  unfold chargeAt; infer_instance

/-- Predicate form of one loop iteration of `Backtest::trade_costs`: the
iteration at index `i` writes `-cost_rate` at index `j`. -/
def writesAt (s : List ℚ) (i j : ℕ) : Prop :=
  (s.getD i 0 = 0 ∧ s.getD (i - 1) 0 ≠ 0 ∧ j = i - 1) ∨
  (s.getD i 0 ≠ 0 ∧ s.getD (i - 1) 0 = 0 ∧ j = i) ∨
  (s.getD i 0 ≠ 0 ∧ s.getD (i - 1) 0 ≠ 0 ∧ s.getD i 0 ≠ s.getD (i - 1) 0 ∧
    (j = i - 1 ∨ j = i))

instance (s : List ℚ) (i j : ℕ) : Decidable (writesAt s i j) := by
  unfold writesAt; infer_instance

/-- The win-rate scan as the claim describes it, but with the behaviour the
code actually has on an open event: the new trade's accumulator receives the
opening step's return, and on a reversal the previous trade's accumulated
profit is carried over (no reset).  Structural recursion over the adjacent
signal pairs, the loop body being exactly `wrCore`. -/
def wrAdjLoop (st : ℕ × ℕ × ℕ × ℚ × Bool) (prev : ℚ) :
    List (ℚ × ℚ) → ℕ × ℕ × ℕ × ℚ × Bool
  | [] => st
  | (val, ret) :: rest => wrAdjLoop (wrCore st prev val ret) val rest

/-- Amended-claim formulation of `Backtest::win_rate_stats`: scan the
adjacent signal pairs (paired with the per-step log returns) by structural
recursion. -/
def winRateAdj (signals log_rets : List ℚ) : WinRate :=
  wrPack (wrAdjLoop (0, 0, 0, 0, false) (signals.getD 0 0)
    ((signals.drop 1).zip (log_rets.drop 1)))

/-- Modelled from the claim's words (C4): each open event — including the
open half of a reversal — *resets* the profit accumulator, and each close
is judged on the profit accumulated since that trade opened. -/
def claimWrCore (st : ℕ × ℕ × ℕ × ℚ × Bool) (prev val ret : ℚ) :
    ℕ × ℕ × ℕ × ℚ × Bool :=
  let (opened, closed, cp, curr, isOpen) := st
  if val = 0 ∧ prev ≠ 0 then
    (opened, closed + 1, if 0 < curr then cp + 1 else cp, 0, false)
  else if val ≠ 0 ∧ prev = 0 then
    (opened + 1, closed, cp, 0, true)
  else if val ≠ 0 ∧ prev ≠ 0 ∧ val ≠ prev then
    (opened + 1, closed + 1, if 0 < curr then cp + 1 else cp, 0, true)
  else if isOpen then (opened, closed, cp, curr + ret, isOpen)
  else st

/-- Structural scan for `claimWrCore`. -/
def claimWrLoop (st : ℕ × ℕ × ℕ × ℚ × Bool) (prev : ℚ) :
    List (ℚ × ℚ) → ℕ × ℕ × ℕ × ℚ × Bool
  | [] => st
  | (val, ret) :: rest => claimWrLoop (claimWrCore st prev val ret) val rest

/-- Modelled from the claim's words (C4): the win-rate statistics with
resetting opens and `win_rate = closed_profit / closed` when `closed > 0`,
else `0`. -/
def claimWinRate (signals log_rets : List ℚ) : WinRate :=
  let (opened, closed, cp, _, _) :=
    claimWrLoop (0, 0, 0, 0, false) (signals.getD 0 0)
      ((signals.drop 1).zip (log_rets.drop 1))
  ⟨if 0 < closed then (cp : ℚ) / (closed : ℚ) else 0, opened, closed, cp⟩

/-- Drawdowns as the claim states them (C2): over the *normalised equity
curve*, i.e. the cumulative sum of the log returns, exponentiated minus
one, with the same running-maximum scan. -/
noncomputable def drawdownsSpec (log_returns : List ℚ) : Option (List ℝ) :=
  match normalise_returns (cumulative_returns log_returns) with
  | [] => none
  | r0 :: rest => some (ddGo r0 (r0 :: rest))

/-! ## Helper lemmas -/

lemma getD_set (l : List ℚ) (m : ℕ) (v : ℚ) (j : ℕ) :
    (l.set m v).getD j 0 = if m = j ∧ m < l.length then v else l.getD j 0 := by
  simp only [List.getD_eq_getElem?_getD, List.getElem?_set]
  by_cases hmj : m = j
  · subst hmj
    by_cases hm : m < l.length
    · simp [hm]
    · simp [hm, List.getElem?_eq_none (le_of_not_lt hm)]
  · simp [hmj]

lemma getD_of_lt {l : List ℚ} {j : ℕ} (h : j < l.length) : l.getD j 0 = l[j] :=
  List.getD_eq_getElem l 0 h

lemma triggerOf_eq_triggerSpec (sg : Signals) (x : ℚ) :
    triggerOf sg x = triggerSpec sg x := by
  unfold triggerOf triggerSpec openMatchB closeMatchB
  cases h1 : optMatch sg.eq.fst (fun t => decide (x = t)) <;>
    cases h2 : optMatch sg.neq.fst (fun t => decide (x ≠ t)) <;>
    cases h3 : optMatch sg.gt.fst (fun t => decide (x ≥ t)) <;>
    cases h4 : optMatch sg.lt.fst (fun t => decide (x ≤ t)) <;>
    cases h5 : optMatch sg.eq.snd (fun t => decide (x = t)) <;>
    cases h6 : optMatch sg.neq.snd (fun t => decide (x ≠ t)) <;>
    cases h7 : optMatch sg.gt.snd (fun t => decide (x ≥ t)) <;>
    cases h8 : optMatch sg.lt.snd (fun t => decide (x ≤ t)) <;>
    simp [h1, h2, h3, h4, h5, h6, h7, h8]

lemma tcStep_length (s : List ℚ) (c : ℚ) (acc : List ℚ) (i : ℕ) :
    (tcStep s c acc i).length = acc.length := by
  unfold tcStep
  dsimp only
  split_ifs <;> simp

lemma tc_foldl_length (s : List ℚ) (c : ℚ) :
    ∀ (L : List ℕ) (acc : List ℚ),
      (L.foldl (tcStep s c) acc).length = acc.length := by
  intro L
  induction L with
  | nil => intro acc; rfl
  | cons i L ih =>
    intro acc
    simp only [List.foldl_cons]
    rw [ih, tcStep_length]

lemma trade_costs_length (s : List ℚ) (c : ℚ) :
    (trade_costs s c).length = s.length := by
  unfold trade_costs
  rw [tc_foldl_length, List.length_replicate]

lemma tcStep_getD (s : List ℚ) (c : ℚ) (acc : List ℚ) (i j : ℕ)
    (hacc : acc.length = s.length) (hi0 : 1 ≤ i) (hi : i < s.length)
    (_hj : j < s.length) :
    (tcStep s c acc i).getD j 0 = if writesAt s i j then -c else acc.getD j 0 := by
  have hi1 : i - 1 < acc.length := by omega
  have hi2 : i < acc.length := by omega
  unfold tcStep
  dsimp only
  by_cases hw : writesAt s i j
  · rw [if_pos hw]
    rcases hw with ⟨h0, h1, hj'⟩ | ⟨h0, h1, hj'⟩ | ⟨h0, h1, h2, hj'⟩
    · rw [if_pos ⟨h0, h1⟩, getD_set, if_pos ⟨hj'.symm, hi1⟩]
    · rw [if_neg (by tauto), if_pos ⟨h0, h1⟩, getD_set, if_pos ⟨hj'.symm, hi2⟩]
    · rw [if_neg (by tauto), if_neg (by tauto), if_pos ⟨h0, h1, h2⟩, getD_set]
      rcases hj' with hj' | hj'
      · rw [if_neg (by omega), getD_set, if_pos ⟨hj'.symm, hi1⟩]
      · rw [if_pos ⟨hj'.symm, by simpa using hi2⟩]
  · rw [if_neg hw]
    split_ifs with h1 h2 h3
    · rw [getD_set, if_neg]
      rintro ⟨hj', _⟩
      exact hw (Or.inl ⟨h1.1, h1.2, hj'.symm⟩)
    · rw [getD_set, if_neg]
      rintro ⟨hj', _⟩
      exact hw (Or.inr (Or.inl ⟨h2.1, h2.2, hj'.symm⟩))
    · rw [getD_set, if_neg, getD_set, if_neg]
      · rintro ⟨hj', _⟩
        exact hw (Or.inr (Or.inr ⟨h3.1, h3.2.1, h3.2.2, Or.inl hj'.symm⟩))
      · rintro ⟨hj', _⟩
        exact hw (Or.inr (Or.inr ⟨h3.1, h3.2.1, h3.2.2, Or.inr hj'.symm⟩))
    · rfl

lemma tc_fold_char (s : List ℚ) (c : ℚ) :
    ∀ (k i0 : ℕ), 1 ≤ i0 → i0 + k ≤ s.length →
      ∀ acc : List ℚ, acc.length = s.length → ∀ j, j < s.length →
        ((∃ i, i0 ≤ i ∧ i < i0 + k ∧ writesAt s i j) →
          ((List.range' i0 k).foldl (tcStep s c) acc).getD j 0 = -c) ∧
        ((¬ ∃ i, i0 ≤ i ∧ i < i0 + k ∧ writesAt s i j) →
          ((List.range' i0 k).foldl (tcStep s c) acc).getD j 0 = acc.getD j 0) := by
  intro k
  induction k with
  | zero =>
    intro i0 _ _ acc _ j _
    refine ⟨fun h => ?_, fun _ => rfl⟩
    obtain ⟨i, h1, h2, _⟩ := h
    omega
  | succ k ih =>
    intro i0 hi0 hk acc hacc j hj
    have hstep : ((List.range' i0 (k + 1)).foldl (tcStep s c) acc) =
        (List.range' (i0 + 1) k).foldl (tcStep s c) (tcStep s c acc i0) := rfl
    have hacc' : (tcStep s c acc i0).length = s.length := by
      rw [tcStep_length, hacc]
    have hmain := ih (i0 + 1) (by omega) (by omega) (tcStep s c acc i0) hacc' j hj
    have hstepD := tcStep_getD s c acc i0 j hacc hi0 (by omega) hj
    constructor
    · intro hex
      rw [hstep]
      by_cases hup : ∃ i, i0 + 1 ≤ i ∧ i < i0 + 1 + k ∧ writesAt s i j
      · exact hmain.1 hup
      · obtain ⟨i, hle, hlt, hwr⟩ := hex
        have hii : i = i0 := by
          by_contra hne
          exact hup ⟨i, by omega, by omega, hwr⟩
        subst hii
        rw [hmain.2 hup, hstepD, if_pos hwr]
    · intro hex
      rw [hstep, hmain.2 (fun ⟨i, hle, hlt, hwr⟩ => hex ⟨i, by omega, by omega, hwr⟩),
        hstepD, if_neg (fun hwr => hex ⟨i0, by omega, by omega, hwr⟩)]

lemma exists_writes_iff_chargeAt (s : List ℚ) (j : ℕ) (_hj : j < s.length) :
    (∃ i, 1 ≤ i ∧ i < 1 + (s.length - 1) ∧ writesAt s i j) ↔ chargeAt s j := by
  have hn : 1 + (s.length - 1) = 1 ⊔ s.length := by omega
  unfold chargeAt writesAt
  constructor
  · rintro ⟨i, h1, h2, ⟨h0, hp, hj'⟩ | ⟨h0, hp, hj'⟩ | ⟨h0, hp, hne, hj' | hj'⟩⟩
    · have hi : i = j + 1 := by omega
      subst hi
      exact Or.inl ⟨by omega, h0, by simpa using hp⟩
    · subst hj'
      exact Or.inr (Or.inl ⟨h1, by omega, h0, hp⟩)
    · have hi : i = j + 1 := by omega
      subst hi
      exact Or.inr (Or.inr (Or.inl ⟨by omega, h0, by simpa using hp,
        by simpa using hne⟩))
    · subst hj'
      exact Or.inr (Or.inr (Or.inr ⟨h1, by omega, h0, hp, hne⟩))
  · rintro (⟨hlt, h0, hp⟩ | ⟨h1, hlt, h0, hp⟩ |
      ⟨hlt, h0, hp, hne⟩ | ⟨h1, hlt, h0, hp, hne⟩)
    · exact ⟨j + 1, by omega, by omega, Or.inl ⟨h0, by simpa using hp, by omega⟩⟩
    · exact ⟨j, h1, by omega, Or.inr (Or.inl ⟨h0, hp, rfl⟩)⟩
    · exact ⟨j + 1, by omega, by omega,
        Or.inr (Or.inr ⟨h0, by simpa using hp, by simpa using hne,
          Or.inl (by omega)⟩)⟩
    · exact ⟨j, h1, by omega, Or.inr (Or.inr ⟨h0, hp, hne, Or.inr rfl⟩)⟩

lemma trade_costs_getD (s : List ℚ) (c : ℚ) (j : ℕ) (hj : j < s.length) :
    (trade_costs s c).getD j 0 = if chargeAt s j then -c else 0 := by
  have h := tc_fold_char s c (s.length - 1) 1 (by omega) (by omega)
    (List.replicate s.length 0) (by simp) j hj
  have hrep : (List.replicate s.length (0 : ℚ)).getD j 0 = 0 := by
    simp [List.getD_eq_getElem?_getD, List.getElem?_replicate, hj]
  by_cases hex : ∃ i, 1 ≤ i ∧ i < 1 + (s.length - 1) ∧ writesAt s i j
  · rw [if_pos ((exists_writes_iff_chargeAt s j hj).1 hex)]
    exact h.1 hex
  · rw [if_neg]
    · exact (h.2 hex).trans hrep
    · intro hc
      exact hex ((exists_writes_iff_chargeAt s j hj).2 hc)

lemma wr_fold_eq (s lr : List ℚ) (hlen : lr.length = s.length) :
    ∀ (k j : ℕ), 1 ≤ j → j + k = s.length →
      ∀ st, (List.range' j k).foldl (wrStep s lr) st =
        wrAdjLoop st (s.getD (j - 1) 0) ((s.drop j).zip (lr.drop j)) := by
  intro k
  induction k with
  | zero =>
    intro j _ hjk st
    have hd : s.drop j = [] := by
      apply List.drop_eq_nil_of_le
      omega
    simp [hd, wrAdjLoop]
  | succ k ih =>
    intro j hj hjk st
    have hjs : j < s.length := by omega
    have hjl : j < lr.length := by omega
    have hds : s.drop j = s[j] :: s.drop (j + 1) := List.drop_eq_getElem_cons hjs
    have hdl : lr.drop j = lr[j] :: lr.drop (j + 1) := List.drop_eq_getElem_cons hjl
    have hrange : List.range' j (k + 1) = j :: List.range' (j + 1) k := rfl
    rw [hrange, List.foldl_cons, ih (j + 1) (by omega) (by omega), hds, hdl]
    have hstep : wrStep s lr st j =
        wrCore st (s.getD (j - 1) 0) s[j] lr[j] := by
      unfold wrStep
      rw [getD_of_lt hjs, getD_of_lt hjl]
    have hprev : s.getD (j + 1 - 1) 0 = s[j] := by
      simpa using getD_of_lt hjs
    rw [hprev, hstep]
    rfl

lemma sigFold_length (factor : ℚ) :
    ∀ (l : List ℚ) (st : Bool × List ℚ),
      ((l.foldl (sigStep factor) st).snd).length = st.snd.length + l.length := by
  intro l
  induction l with
  | nil => intro st; rfl
  | cons x rest ih =>
    intro st
    rw [List.foldl_cons, ih]
    have hlen : ((sigStep factor st x).snd).length = st.snd.length + 1 := by
      unfold sigStep
      split_ifs <;> simp
    rw [hlen, List.length_cons]
    omega

lemma sigFold_head (factor : ℚ) :
    ∀ (l : List ℚ) (b : Bool) (t : List ℚ),
      ∃ t', (l.foldl (sigStep factor) (b, 0 :: t)).snd = 0 :: t' := by
  intro l
  induction l with
  | nil => intro b t; exact ⟨t, rfl⟩
  | cons x rest ih =>
    intro b t
    rw [List.foldl_cons]
    have hstep : ∃ (b' : Bool) (v : ℚ),
        sigStep factor (b, 0 :: t) x = (b', (0 :: t) ++ [v]) := by
      unfold sigStep
      split_ifs <;> exact ⟨_, _, rfl⟩
    obtain ⟨b', v, hv⟩ := hstep
    rw [hv]
    exact ih b' (t ++ [v])

lemma ndOp_eq_zipWith (f : ℚ → ℚ → ℚ) (a b : List ℚ) (h : b.length = a.length) :
    ndOp f a b = some (List.zipWith f a b) := by
  unfold ndOp
  rw [if_pos h]

lemma ndOp_none (f : ℚ → ℚ → ℚ) (a b : List ℚ) (h1 : b.length ≠ a.length)
    (h2 : b.length ≠ 1) : ndOp f a b = none := by
  unfold ndOp
  rw [if_neg h1, if_neg h2]

/-! ## Claim theorems -/

/-- C5 (counterexample): on the trigger series `[0, +1, 0, 0, -1, 0]` with
direction long (factor `+1`), the signal generator's hysteresis stage does
*not* return `[0, 0, +1, +1, 0, 0]` as the claim states. -/
theorem C5_counterexample_hysteresis :
    signalsFromTriggers 1 [0, 1, 0, 0, -1, 0] ≠ [0, 0, 1, 1, 0, 0] := by
  decide

/-- C5 (amended): on the trigger series `[0, +1, 0, 0, -1, 0]` with direction
long, the signal generator returns `[0, 0, +1, +1, +1, 0]`: acting on the
*previous* step's trigger, the position persists at index 4 and closes at
index 5, one step after the `-1` trigger at index 4. -/
theorem C5_amended_hysteresis :
    signalsFromTriggers 1 [0, 1, 0, 0, -1, 0] = [0, 0, 1, 1, 1, 0] := by
  decide

/-- C6 (counterexample): consolidating `[[0, +1, 0], [0, 0, -1]]` does *not*
return `[0, +1, 0]` as the claim states. -/
theorem C6_counterexample_consolidate :
    consolidate_signals [[0, 1, 0], [0, 0, -1]] ≠ some [0, 1, 0] := by
  decide

/-- C6 (amended): consolidating `[[0, +1, 0], [0, 0, -1]]` returns
`[0, +1, -1]`: at each index the first *nonzero* value across the streams
wins, so the first stream takes precedence only where it is itself nonzero;
at index 2 the second stream's `-1` is emitted. -/
theorem C6_amended_consolidate :
    consolidate_signals [[0, 1, 0], [0, 0, -1]] = some [0, 1, -1] := by
  decide

/-- C10 (counterexample): an empty trigger series does *not* yield an empty
signal series (the generator's accumulator starts as `[0]` before the loop,
so the output has length 1). -/
theorem C10_counterexample_empty :
    signalsFromTriggers 1 [] ≠ ([] : List ℚ) := by
  decide

/-- C10 (amended): for every trigger series and direction factor, the signal
generator's output has length `max (input length) 1` — equal to the input
length for non-empty input, but `[0]` (length 1) for empty input — and its
first element is always `0`. -/
theorem C10_amended_signal_shape (factor : ℚ) (ts : List ℚ) :
    (signalsFromTriggers factor ts).length = max ts.length 1 ∧
    (signalsFromTriggers factor ts).head? = some 0 := by
  constructor
  · unfold signalsFromTriggers
    rw [sigFold_length, List.length_dropLast]
    have h1 : ([0] : List ℚ).length = 1 := rfl
    rw [h1]
    omega
  · unfold signalsFromTriggers
    obtain ⟨t', ht⟩ := sigFold_head factor ts.dropLast false []
    rw [ht]
    rfl

/-- C1 (counterexample): signals `[0, 1]`, cost rate 1, both weights 1, both
log-return series `[0, 0]`.  The trade opens at index 1, so the cost series
is `[0, -1]`; the claim's formula predicts a portfolio return of `-1` at
index 1 (cost charged once), but the code produces `-2`: the same cost
vector is added inside `construct_portfolio_returns` once per asset. -/
theorem C1_counterexample_portfolio :
    portfolio_log_returns [0, 1] 1 1 1 [0, 0] (some [0, 0]) = some [0, -2] ∧
    (0 : ℚ) * 1 * 1 * 1 + 0 * 1 * (-1) * 1 + (trade_costs [0, 1] 1).getD 1 0 = -1 ∧
    (-2 : ℚ) ≠ -1 := by
  refine ⟨?_, ?_, by norm_num⟩
  · norm_num [portfolio_log_returns, construct_portfolio_returns, ndOp,
      trade_costs, tcStep, List.range', List.foldl, List.replicate, List.zipWith]
  · norm_num [trade_costs, tcStep, List.range', List.foldl, List.replicate]

/-- C1 (amended): in pairs mode, with both log-return series of the same
length as the signal series, the portfolio log-return at every index `i`
equals `r1[i]*s[i]*(+1)*w1 + r2[i]*s[i]*(-1)*w2 + 2*cost[i]` — the
trading-cost series enters the per-step total once per asset leg, hence
*twice* in pairs mode, not once. -/
theorem C1_amended_portfolio_pairs (s : List ℚ) (c w1 w2 : ℚ) (r1 r2 : List ℚ)
    (h1 : r1.length = s.length) (h2 : r2.length = s.length) :
    ∃ l, portfolio_log_returns s c w1 w2 r1 (some r2) = some l ∧
      l.length = s.length ∧
      ∀ j, j < s.length →
        l.getD j 0 = r1.getD j 0 * s.getD j 0 * 1 * w1
          + r2.getD j 0 * s.getD j 0 * (-1) * w2
          + 2 * (trade_costs s c).getD j 0 := by
  have htc : (trade_costs s c).length = s.length := trade_costs_length s c
  have e1 : construct_portfolio_returns s r1 (trade_costs s c) 1 w1 =
      some (List.zipWith (· + ·)
        ((List.zipWith (· * ·) r1 s).map (fun x => x * 1 * w1))
        (trade_costs s c)) := by
    unfold construct_portfolio_returns
    rw [ndOp_eq_zipWith _ _ _ h1.symm, Option.some_bind,
      ndOp_eq_zipWith _ _ _ (by simp [List.length_zipWith, htc, h1])]
  have e2 : construct_portfolio_returns s r2 (trade_costs s c) (-1) w2 =
      some (List.zipWith (· + ·)
        ((List.zipWith (· * ·) r2 s).map (fun x => x * (-1) * w2))
        (trade_costs s c)) := by
    unfold construct_portfolio_returns
    rw [ndOp_eq_zipWith _ _ _ h2.symm, Option.some_bind,
      ndOp_eq_zipWith _ _ _ (by simp [List.length_zipWith, htc, h2])]
  have hlen1 : (List.zipWith (· + ·)
      ((List.zipWith (· * ·) r1 s).map (fun x => x * 1 * w1))
      (trade_costs s c)).length = s.length := by
    simp [List.length_zipWith, htc, h1]
  have hlen2 : (List.zipWith (· + ·)
      ((List.zipWith (· * ·) r2 s).map (fun x => x * (-1) * w2))
      (trade_costs s c)).length = s.length := by
    simp [List.length_zipWith, htc, h2]
  have e3 : portfolio_log_returns s c w1 w2 r1 (some r2) =
      some (List.zipWith (· + ·)
        (List.zipWith (· + ·)
          ((List.zipWith (· * ·) r1 s).map (fun x => x * 1 * w1))
          (trade_costs s c))
        (List.zipWith (· + ·)
          ((List.zipWith (· * ·) r2 s).map (fun x => x * (-1) * w2))
          (trade_costs s c))) := by
    unfold portfolio_log_returns
    dsimp only
    rw [e1, Option.some_bind, e2, Option.some_bind,
      ndOp_eq_zipWith _ _ _ (by rw [hlen1, hlen2])]
  refine ⟨_, e3, ?_, ?_⟩
  · simp [List.length_zipWith, List.length_map, h1, h2, htc]
  · intro j hj
    have hj1 : j < r1.length := by omega
    have hj2 : j < r2.length := by omega
    have hjtc : j < (trade_costs s c).length := by omega
    have hjl : j < (List.zipWith (· + ·)
        (List.zipWith (· + ·)
          ((List.zipWith (· * ·) r1 s).map (fun x => x * 1 * w1))
          (trade_costs s c))
        (List.zipWith (· + ·)
          ((List.zipWith (· * ·) r2 s).map (fun x => x * (-1) * w2))
          (trade_costs s c))).length := by
      simp only [List.length_zipWith, hlen1, hlen2]
      omega
    rw [getD_of_lt hjl, getD_of_lt hj1, getD_of_lt hj2, getD_of_lt hj,
      getD_of_lt hjtc]
    simp only [List.getElem_zipWith, List.getElem_map]
    ring

/-- Witness for C1 (amended) at signals `[0, 1]`, cost 1, weights 1, both
return series `[0, 0]`. -/
theorem C1_amended_portfolio_pairs_witness :
    ∃ l, portfolio_log_returns [0, 1] 1 1 1 [0, 0] (some [0, 0]) = some l ∧
      l.length = ([0, 1] : List ℚ).length ∧
      ∀ j, j < ([0, 1] : List ℚ).length →
        l.getD j 0 = ([0, 0] : List ℚ).getD j 0 * ([0, 1] : List ℚ).getD j 0 * 1 * 1
          + ([0, 0] : List ℚ).getD j 0 * ([0, 1] : List ℚ).getD j 0 * (-1) * 1
          + 2 * (trade_costs [0, 1] 1).getD j 0 :=
  C1_amended_portfolio_pairs [0, 1] 1 1 1 [0, 0] [0, 0] rfl rfl

/-- C4 (counterexample): signals `[0, 1, -1, 0]` with log returns
`[0, 10, -1, 0]`.  The code opens at index 1 (accumulating the return 10
into the new trade), reverses at index 2 — judging the first close on 10,
then *carrying* the accumulator over (10 + (-1) = 9, no reset) — and closes
at index 3, judging the second close on 9; it reports `closed_profit = 2`.
Under the claim's semantics (each open resets the accumulator) both closes
are judged on an empty accumulation, giving `closed_profit = 0`. -/
theorem C4_counterexample_win_rate :
    win_rate_stats [0, 1, -1, 0] [0, 10, -1, 0] ≠
      claimWinRate [0, 1, -1, 0] [0, 10, -1, 0] ∧
    (win_rate_stats [0, 1, -1, 0] [0, 10, -1, 0]).closed_profit = 2 ∧
    (claimWinRate [0, 1, -1, 0] [0, 10, -1, 0]).closed_profit = 0 ∧
    (win_rate_stats [0, 1, 0, 1, 0, 1, 0] [0, 1, 0, 0, 0, 0, 0]).win_rate = 33 / 100 ∧
    (33 / 100 : ℚ) ≠ 1 / 3 := by
  have hcode : (win_rate_stats [0, 1, -1, 0] [0, 10, -1, 0]).closed_profit = 2 := by
    norm_num [win_rate_stats, wrStep, wrCore, wrPack, List.range', List.foldl]
  have hclaim : (claimWinRate [0, 1, -1, 0] [0, 10, -1, 0]).closed_profit = 0 := by
    norm_num [claimWinRate, claimWrLoop, claimWrCore]
  have hround : (win_rate_stats [0, 1, 0, 1, 0, 1, 0]
      [0, 1, 0, 0, 0, 0, 0]).win_rate = 33 / 100 := by
    norm_num [win_rate_stats, wrStep, wrCore, wrPack, List.range', List.foldl,
      round_float, f64round]
  refine ⟨fun h => ?_, hcode, hclaim, hround, by norm_num⟩
  rw [h, hclaim] at hcode
  exact absurd hcode (by norm_num)

/-- C4 (amended): the win-rate statistics are computed by scanning adjacent
signal pairs exactly as the claim describes, *except* that an open event
starts the new trade's accumulator from the current value plus the opening
step's return: on an open from flat the accumulator (0 after any prior
close) becomes that step's return, and on a reversal the previous trade's
accumulated profit is carried over — it is only reset to zero by a plain
close.  Formally, the index-driven loop equals the structural scan
`winRateAdj` over the adjacent pairs. -/
theorem C4_amended_win_rate (s lr : List ℚ) (hlen : lr.length = s.length) :
    win_rate_stats s lr = winRateAdj s lr := by
  rcases Nat.eq_zero_or_pos s.length with h0 | hpos
  · have hs : s = [] := List.length_eq_zero.mp h0
    have hl : lr = [] := List.length_eq_zero.mp (by omega)
    subst hs
    subst hl
    rfl
  · unfold win_rate_stats winRateAdj
    rw [wr_fold_eq s lr hlen (s.length - 1) 1 (by omega) (by omega)]

/-- Witness for C4 (amended) at signals `[0, 1, 0]`, log returns `[1, 2, 3]`. -/
theorem C4_amended_win_rate_witness :
    win_rate_stats [0, 1, 0] [1, 2, 3] = winRateAdj [0, 1, 0] [1, 2, 3] :=
  C4_amended_win_rate [0, 1, 0] [1, 2, 3] rfl

/-- C7 (confirmed): the trading-cost series has the same length as the
signal series; each entry `j` is `-cost_rate` exactly when an adjacent pair
makes it the `i-1` of a close, the `i` of an open, or either side of a
reversal, and `0` otherwise; since every assignment writes the same value
`-cost_rate` and a later write overwrites (never accumulates onto) an
earlier one, every entry is either `0` or exactly `-cost_rate`. -/
theorem C7_trade_costs_char (s : List ℚ) (c : ℚ) :
    (trade_costs s c).length = s.length ∧
    (∀ j, j < s.length →
      (trade_costs s c).getD j 0 = if chargeAt s j then -c else 0) ∧
    (∀ x ∈ trade_costs s c, x = 0 ∨ x = -c) := by
  refine ⟨trade_costs_length s c, fun j hj => trade_costs_getD s c j hj, ?_⟩
  intro x hx
  obtain ⟨j, hjlen, hjx⟩ := List.mem_iff_getElem.mp hx
  have hj : j < s.length := by
    rw [← trade_costs_length s c]
    exact hjlen
  have hchar := trade_costs_getD s c j hj
  rw [getD_of_lt hjlen] at hchar
  rw [← hjx, hchar]
  split_ifs
  · exact Or.inr rfl
  · exact Or.inl rfl

/-- Witness for C7 at signals `[0, 1, 0]` (an open at index 1 then a close
judged at pair (1,2)), cost rate 1, index 1. -/
theorem C7_trade_costs_char_witness :
    (trade_costs [0, 1, 0] 1).getD 1 0 = if chargeAt [0, 1, 0] 1 then -1 else 0 :=
  (C7_trade_costs_char [0, 1, 0] 1).2.1 1 (by decide)

/-- C8 (confirmed): the trigger evaluator emits `+1` as soon as *any* open
threshold (tested in the order eq, neq, gt, lt, with `≥`/`≤` inclusive and
unset thresholds never matching) matches, `-1` when no open threshold but
some close threshold matches, and `0` otherwise — so at most one of
open-match/close-match fires per element; in particular a value matching
both an eq-open and a gt-open threshold yields `+1`. -/
theorem C8_trigger_priority :
    (∀ (sg : Signals) (series : List ℚ),
      generate_triggers sg series = series.map (triggerSpec sg)) ∧
    (∀ (sg : Signals) (x t u : ℚ), sg.eq.fst = some t → x = t →
      sg.gt.fst = some u → u ≤ x → triggerOf sg x = 1) := by
  constructor
  · intro sg series
    unfold generate_triggers
    exact congrArg series.map (funext (triggerOf_eq_triggerSpec sg))
  · intro sg x t u heq hxt _ _
    unfold triggerOf
    rw [heq]
    simp [optMatch, hxt]

/-- Witness for C8: a threshold bundle with eq-open 5 and gt-open 3, and the
value 5 (matching both); the trigger is `+1`. -/
theorem C8_trigger_priority_witness :
    triggerOf ⟨(some 5, none), (none, none), (some 3, none), (none, none),
      SignalType.Long⟩ 5 = 1 :=
  C8_trigger_priority.2 _ 5 5 3 rfl rfl rfl (by norm_num)

/-- C9 (amended): the precondition violations are *not* surfaced as typed
error values.  Consolidating an empty stream list panics (out-of-bounds on
`signals_arr[0]`, modelled `none`); consolidating streams of differing
lengths either panics (when a later stream is shorter than the first) or
*silently truncates* to the first stream's length (when a later stream is
longer — `[[0], [0, 1]]` returns `[0]`); a backtest whose log-return length
differs from the signal length (and whose signal length is not 1, the
`ndarray` broadcast case) panics inside the array arithmetic rather than
returning an `Err`; and `run_backtest` never returns an error value — every
normal return is `Ok`. -/
theorem C9_preconditions :
    consolidate_signals ([] : List (List ℚ)) = none ∧
    consolidate_signals [[0], [0, 1]] = some [0] ∧
    consolidate_signals [[0, 0], [0]] = none ∧
    (∀ (s : List ℚ) (c w1 w2 : ℚ) (r1 : List ℚ) (r2o : Option (List ℚ)),
      s.length ≠ r1.length → s.length ≠ 1 →
      run_backtest s c w1 w2 r1 r2o = none) ∧
    (∀ (s : List ℚ) (c w1 w2 : ℚ) (r1 : List ℚ) (r2o : Option (List ℚ))
      (v : Except String Metrics),
      run_backtest s c w1 w2 r1 r2o = some v → ∃ m, v = Except.ok m) := by
  refine ⟨rfl, by decide, by decide, ?_, ?_⟩
  · intro s c w1 w2 r1 r2o hne h1
    unfold run_backtest portfolio_log_returns construct_portfolio_returns
    rw [ndOp_none _ _ _ hne h1]
    rfl
  · intro s c w1 w2 r1 r2o v hv
    unfold run_backtest at hv
    rcases hplr : portfolio_log_returns s c w1 w2 r1 r2o with _ | lrs
    · rw [hplr] at hv
      exact absurd hv (by simp)
    · rw [hplr, Option.some_bind] at hv
      obtain ⟨m, _, hm⟩ := Option.map_eq_some'.mp hv
      exact ⟨m, hm.symm⟩

/-- Witness for C9 (amended): a backtest with a 2-element signal series and
a 1-element log-return series aborts with no result. -/
theorem C9_preconditions_witness :
    run_backtest [0, 1] 1 1 1 [0] none = none :=
  C9_preconditions.2.2.2.1 [0, 1] 1 1 1 [0] none (by decide) (by decide)

/-- C9 (counterexample): consolidating the streams `[[0], [0, 1]]` — of
differing lengths 1 and 2 — does *not* fail: it silently returns `[0]`,
truncating the longer stream to the first stream's length. -/
theorem C9_counterexample_silent_truncation :
    consolidate_signals [[0], [0, 1]] = some [0] := by
  decide

/-- C2 (code bug): at log returns `[1, 0]` the code's drawdown series is
`[0, -(e - 1)]` — it normalises the *raw per-step* log returns instead of
the cumulative equity curve the claim (and the struct's own
`cum_norm_returns` field) prescribe.  Over the equity curve, which stays
flat at its running high, the drawdowns would be `[0, 0]`. -/
theorem C2_drawdowns_not_on_equity :
    drawdowns [1, 0] = some [0, -(Real.exp 1 - 1)] ∧
    drawdownsSpec [1, 0] = some [0, 0] ∧
    drawdowns [1, 0] ≠ drawdownsSpec [1, 0] := by
  have hexp : (1 : ℝ) < Real.exp 1 := by
    have h := Real.exp_lt_exp.mpr (show (0 : ℝ) < 1 by norm_num)
    rwa [Real.exp_zero] at h
  have hlt1 : ¬(Real.exp 1 - 1 < Real.exp 1 - 1) := lt_irrefl _
  have hlt2 : ¬(Real.exp 1 - 1 < 0) := by linarith
  have hnorm : normalise_returns [1, 0] = [Real.exp 1 - 1, 0] := by
    norm_num [normalise_returns, Real.exp_zero]
  have hcum : cumulative_returns [1, 0] = [1, 1] := by
    norm_num [cumulative_returns, cumAux]
  have hnorm2 : normalise_returns [1, 1] = [Real.exp 1 - 1, Real.exp 1 - 1] := by
    norm_num [normalise_returns]
  have hd1 : drawdowns [1, 0] = some [0, -(Real.exp 1 - 1)] := by
    unfold drawdowns
    rw [hnorm]
    simp [ddGo, hlt1, hlt2]
  have hd2 : drawdownsSpec [1, 0] = some [0, 0] := by
    unfold drawdownsSpec
    rw [hcum, hnorm2]
    simp [ddGo, hlt1]
  refine ⟨hd1, hd2, ?_⟩
  rw [hd1, hd2]
  intro h
  have h2 : -(Real.exp 1 - 1) = 0 := by
    have := (Option.some_inj.mp h)
    simpa using this
  linarith

/-- C3 (counterexample): at the log-return series `[1]` the mean of the
nonzero entries is `1`, but `mean_return` yields `e - 1 ≈ 1.718`: the code
exponentiates the log-mean (`f64::exp(log_ret) - 1.0`) before returning. -/
theorem C3_counterexample_mean :
    mean_return [1] = Real.exp 1 - 1 ∧ mean_return [1] ≠ 1 := by
  have hval : mean_return [1] = Real.exp 1 - 1 := by
    norm_num [mean_return, List.filter, List.foldl]
  refine ⟨hval, ?_⟩
  rw [hval]
  intro h
  have hgt := Real.exp_one_gt_d9
  rw [sub_eq_iff_eq_add] at h
  norm_num [h] at hgt

/-- C3 (amended): `mean_return` equals `exp(m) - 1` where `m` is the
arithmetic mean of the *nonzero* log returns (zero entries excluded from
sum and count) — the log-mean converted to a linear return — and equals `0`
(via `exp 0 - 1`) when the series contains no nonzero entry. -/
theorem C3_amended_mean (lr : List ℚ) :
    (lr.filter (fun x => decide (x ≠ 0)) = [] → mean_return lr = 0) ∧
    (lr.filter (fun x => decide (x ≠ 0)) ≠ [] →
      mean_return lr = Real.exp
        (((lr.filter (fun x => decide (x ≠ 0))).foldl (· + ·) 0 /
          ((lr.filter (fun x => decide (x ≠ 0))).length : ℚ) : ℚ) : ℝ) - 1) := by
  constructor
  · intro h
    unfold mean_return
    rw [h]
    norm_num [Real.exp_zero]
  · intro hne
    unfold mean_return
    dsimp only
    rcases hc : (lr.filter (fun x => decide (x ≠ 0))).length with _ | n
    · exact absurd (List.length_eq_zero.mp hc) hne
    · rfl

/-- Witness for C3 (amended): the empty series has no nonzero entry and
`mean_return [] = 0`. -/
theorem C3_amended_mean_witness : mean_return [] = 0 :=
  (C3_amended_mean []).1 rfl

end StatArb
